import Mathlib

/-!
Verification development for the resumable CSV export pipeline
(Next.js route handlers + csv utility).

The definitions below are a shallow embedding of the source:
* `src/lib/csvUtils.ts` — `CSV_HEADER`, `rowToCsvLine` with its inner `escapeCsv`;
* `src/src/app/api/export/route.ts` — `POST` (job creation: filter defaulting,
  `where`-object building, `count`, `create`);
* the stream route handler (`GET`) — chunked scan loop with cursor advancement,
  progress events and status writes;
* the job status route (`GET`) and the Prisma persistence calls
  (`findUnique` / `update`), modelled as an association-list store.

Machine numbers are modelled as `Nat` (ids, counts and cursors are non-negative
integers well below 2^53, where JS number arithmetic is exact).  `price` (a SQL
REAL displayed via `toFixed(2)`) is modelled as a non-negative count of
hundredths, and `createdAt` (a JS `Date` displayed via `toISOString`) as a
broken-down UTC timestamp, so that both formatters are exact, executable
functions of the model.
-/

namespace CsvExport

/-- Broken-down UTC timestamp; model of the JS `Date` value stored in
`Product.createdAt`.  Only its `toISOString` rendering is observable in the
exported CSV. -/
structure DateTime where
  year : Nat
  month : Nat
  day : Nat
  hour : Nat
  minute : Nat
  second : Nat
  ms : Nat
deriving DecidableEq, Repr

/-- The decimal digit characters, used to model JS number printing. -/
def digitChar (n : Nat) : Char :=
  if n = 0 then '0' else if n = 1 then '1' else if n = 2 then '2'
  else if n = 3 then '3' else if n = 4 then '4' else if n = 5 then '5'
  else if n = 6 then '6' else if n = 7 then '7' else if n = 8 then '8' else '9'

/-- Decimal digits of `n`, most significant first; model of how a JS number
(a non-negative integer) is converted to a string. -/
def natDigits (n : Nat) : List Char :=
  if h : n < 10 then [digitChar n]
  else natDigits (n / 10) ++ [digitChar (n % 10)]
termination_by n
decreasing_by exact Nat.div_lt_self (by omega) (by omega)

/-- String form of a non-negative integer, as JS `String(n)` /
template-literal coercion produces it. -/
def natToString (n : Nat) : String := ⟨natDigits n⟩

/-- Left-pad the decimal digits of `n` with `'0'` to width `w`; building block
of the ISO-8601 rendering below. -/
def padNum (w n : Nat) : List Char :=
  List.replicate (w - (natDigits n).length) '0' ++ natDigits n

/-- Model of JS `Date.prototype.toISOString`: the canonical
`YYYY-MM-DDTHH:mm:ss.sssZ` rendering used for the `createdAt` column. -/
def toISOString (d : DateTime) : String :=
  ⟨padNum 4 d.year ++ '-' :: padNum 2 d.month ++ '-' :: padNum 2 d.day ++
   'T' :: padNum 2 d.hour ++ ':' :: padNum 2 d.minute ++ ':' :: padNum 2 d.second ++
   '.' :: padNum 3 d.ms ++ ['Z']⟩

/-- Model of `price.toFixed(2)`: `price` is carried as a non-negative number
of hundredths (`cents`), rendered with exactly two decimal places. -/
def toFixed2 (cents : Nat) : String :=
  ⟨natDigits (cents / 100) ++ '.' :: padNum 2 (cents % 100)⟩

/-- The `ProductRow` type of `src/lib/csvUtils.ts` (one row of the `Product`
table).  `price : number` is modelled in hundredths and `createdAt : Date` as
a broken-down timestamp, see the module comment. -/
structure ProductRow where
  id : Nat
  name : String
  category : String
  price : Nat
  quantity : Nat
  status : String
  createdAt : DateTime
deriving DecidableEq, Repr

/-- `CSV_HEADER` of `src/lib/csvUtils.ts`. -/
def CSV_HEADER : String := "id,name,category,price,quantity,status,createdAt\n"

/-- Replace every `'"'` by two; the `val.replace(/"/g, '""')` step of
`escapeCsv`. -/
def doubleQuotes : List Char → List Char
  | [] => []
  | c :: r => if c = '"' then '"' :: '"' :: doubleQuotes r else c :: doubleQuotes r

/-- The inner `escapeCsv` of `rowToCsvLine`: a field containing a comma,
double-quote or newline is wrapped in double quotes with internal
double-quotes doubled; any other field passes through unchanged. -/
def escapeCsv (val : String) : String :=
  if val.data.contains ',' || val.data.contains '"' || val.data.contains '\n' then
    ⟨'"' :: doubleQuotes val.data ++ ['"']⟩
  else val

/-- `rowToCsvLine` of `src/lib/csvUtils.ts`: the 7 fields joined by `","`
(JS `Array.prototype.join` on the mixed array coerces the numeric fields with
`String(.)`, modelled by `natToString`), terminated by a single newline. -/
def rowToCsvLine (product : ProductRow) : String :=
  natToString product.id ++ "," ++ escapeCsv product.name ++ "," ++
  escapeCsv product.category ++ "," ++ toFixed2 product.price ++ "," ++
  natToString product.quantity ++ "," ++ escapeCsv product.status ++ "," ++
  toISOString product.createdAt ++ "\n"

/-- The list of field strings of one encoded row, before CSV escaping: what an
RFC4180 parse of `rowToCsvLine product` must reconstruct field-for-field. -/
def rowFields (product : ProductRow) : List String :=
  [natToString product.id, product.name, product.category,
   toFixed2 product.price, natToString product.quantity, product.status,
   toISOString product.createdAt]

/-!  An executable RFC4180 parser, used as the observer for the round-trip
property: records are split on newlines that are outside double quotes, each
record is split on commas outside double quotes, and each quoted field is
unwrapped with doubled quotes collapsed. -/

/-- Split on `d` at quote-parity level: `inQ` tracks whether the scan is
inside a double-quoted region (each `'"'` toggles it); occurrences of `d`
outside quotes separate the pieces.  Always returns a non-empty list. -/
def splitQAux (d : Char) : Bool → List Char → List (List Char)
  | _, [] => [[]]
  | inQ, c :: rest =>
    if c = '"' then (splitQAux d (!inQ) rest).modifyHead (List.cons c)
    else if inQ = false ∧ c = d then [] :: splitQAux d inQ rest
    else (splitQAux d inQ rest).modifyHead (List.cons c)

/-- Undo quote doubling inside a quoted field: `""` becomes `"`, and the
single closing quote ends the field. -/
def collapseQuotes : List Char → List Char
  | [] => []
  | c :: r =>
    if c = '"' then
      match r with
      | '"' :: r' => '"' :: collapseQuotes r'
      | _ => []
    else c :: collapseQuotes r

/-- Decode one raw field: a field opening with `'"'` is unwrapped (outer
quotes dropped, doubled quotes collapsed); any other field is literal. -/
def unescapeField (f : List Char) : String :=
  if f.head? = some '"' then ⟨collapseQuotes f.tail⟩ else ⟨f⟩

/-- RFC4180 parse: split into records on unquoted newlines (dropping empty
records, such as the one after the final newline), split each record into
fields on unquoted commas, and decode each field. -/
def parseCsv (s : String) : List (List String) :=
  ((splitQAux '\n' false s.data).filter (fun r => !r.isEmpty)).map
    (fun line => (splitQAux ',' false line).map unescapeField)

/-!  Job data model and the two route handlers' `where`-object building. -/

/-- The filter snapshot stored in `ExportJob.filters`
(`JSON.stringify` at creation, `JSON.parse` in the stream handler; the
stringify/parse round trip on this plain record is the identity, so the
snapshot is carried directly as the record). -/
structure Filters where
  category : String
  status : String
  search : String
deriving DecidableEq, Repr

/-- The JSON request body of the job-creation `POST`: each filter field may be
absent (`none`) or present. -/
structure RequestBody where
  category : Option String
  status : Option String
  search : Option String
deriving DecidableEq, Repr

/-- The defaulting step of `POST /api/export`:
`{ category: body.category ?? "", status: body.status ?? "", search: body.search ?? "" }`. -/
def mkFilters (body : RequestBody) : Filters :=
  { category := body.category.getD ""
    status := body.status.getD ""
    search := body.search.getD "" }

/-- Prisma's `name: { contains: pat }` string filter: `pat` occurs as a
contiguous substring of `s`. -/
def strContains (s pat : String) : Bool := decide (List.IsInfix pat.data s.data)

/-- The job status strings written by the routes
(`'PENDING' | 'PROCESSING' | 'DONE' | 'FAILED'`). -/
inductive JobStatus where
  | PENDING
  | PROCESSING
  | DONE
  | FAILED
deriving DecidableEq, Repr

/-- The `ExportJob` record of the Prisma schema (timestamps omitted: no
claim mentions them). -/
structure ExportJob where
  filters : Filters
  status : JobStatus
  lastCursor : Nat
  rowsExported : Nat
  totalRows : Nat
deriving DecidableEq, Repr

/-- `if (filters.category) where.category = filters.category` in
`POST /api/export` (JS string truthiness: the clause is added only for a
non-empty string). -/
def catClauseCreate (f : Filters) (p : ProductRow) : Bool :=
  if f.category ≠ "" then p.category == f.category else true

/-- `if (filters.status) where.status = filters.status` in `POST /api/export`. -/
def statusClauseCreate (f : Filters) (p : ProductRow) : Bool :=
  if f.status ≠ "" then p.status == f.status else true

/-- `if (filters.search) where.name = { contains: filters.search }` in
`POST /api/export`. -/
def searchClauseCreate (f : Filters) (p : ProductRow) : Bool :=
  if f.search ≠ "" then strContains p.name f.search else true

/-- The complete `where` object built by `POST /api/export`: the conjunction
of the clauses added to it. -/
def whereCreate (f : Filters) (p : ProductRow) : Bool :=
  catClauseCreate f p && statusClauseCreate f p && searchClauseCreate f p

/-- The `where` object built by the stream handler from the parsed
`job.filters`, transcribed from that handler's own three `if` statements. -/
def whereStream (f : Filters) (p : ProductRow) : Bool :=
  (if f.category ≠ "" then p.category == f.category else true) &&
  (if f.status ≠ "" then p.status == f.status else true) &&
  (if f.search ≠ "" then strContains p.name f.search else true)

/-- `POST /api/export`: default the body fields, count the matching products
(`prisma.product.count({ where })` over the table `table`), and create the
job record `PENDING / lastCursor 0 / rowsExported 0`. -/
def createJob (table : List ProductRow) (body : RequestBody) : ExportJob :=
  let filters := mkFilters body
  let totalRows := (table.filter (whereCreate filters)).length
  { filters := filters, status := .PENDING, lastCursor := 0,
    rowsExported := 0, totalRows := totalRows }

/-!  The job store.  `prisma.exportJob.findUnique` / `prisma.exportJob.update`
are modelled over an association list keyed by the job id: `update` overwrites
the addressed record's fields and fails (Prisma's record-not-found rejection,
the spec's `Conflict`) when no record has the id. -/

/-- Error taxonomy of the spec's `ExportJobStore.advance`. -/
inductive StoreError where
  | Conflict
  | InvalidTransition
deriving DecidableEq, Repr

/-- The persisted job table, keyed by job id. -/
abbrev Store := List (String × ExportJob)

/-- `prisma.exportJob.findUnique({ where: { id } })`. -/
def findJob : Store → String → Option ExportJob
  | [], _ => none
  | (k, j) :: rest, id => if k == id then some j else findJob rest id

/-- The `data` object of the cursor-advance write: the three overwritten
fields of the addressed record. -/
def updJob (j : ExportJob) (newCursor newRows : Nat) (st : JobStatus) :
    ExportJob :=
  { j with lastCursor := newCursor, rowsExported := newRows, status := st }

/-- The cursor-advance write of the stream loop:
`prisma.exportJob.update({ where: { id }, data: { lastCursor, rowsExported, status } })`.
The update overwrites those three fields of the addressed record and fails
with `Conflict` (record not found) when the job no longer exists; it performs
no comparison against the currently persisted cursor. -/
def advance (s : Store) (id : String) (newCursor newRows : Nat)
    (st : JobStatus) : Except StoreError Store :=
  match s with
  | [] => .error .Conflict
  | (k, j) :: rest =>
    if k == id then
      .ok ((k, updJob j newCursor newRows st) :: rest)
    else
      match advance rest id newCursor newRows st with
      | .ok rest' => .ok ((k, j) :: rest')
      | .error e => .error e

/-!  The export engine: the stream handler's chunked-scan loop. -/

/-- `CHUNK_SIZE` of the stream handler. -/
def CHUNK_SIZE : Nat := 1000

/-- Row ordering by the ordering key `id` (the `orderBy: { id: "asc" }` of the
chunk query). -/
abbrev rowLe (a b : ProductRow) : Prop := a.id ≤ b.id

instance : DecidableRel rowLe := fun a b => Nat.decLe a.id b.id

instance : IsTotal ProductRow rowLe := ⟨fun a b => Nat.le_total a.id b.id⟩

instance : IsTrans ProductRow rowLe := ⟨fun _ _ _ => Nat.le_trans⟩

/-- The rows matching the query predicate that lie strictly past the cursor:
the result set of `where: { ...where, id: { gt: cursor } }`. -/
def remaining (table : List ProductRow) (pred : ProductRow → Bool)
    (cursor : Nat) : List ProductRow :=
  table.filter (fun r => pred r && decide (cursor < r.id))

/-- One chunk query of the stream loop:
`prisma.product.findMany({ where: { ...where, id: { gt: cursor } }, orderBy: { id: "asc" }, take: CHUNK_SIZE })`
— the matching rows past the cursor, in ascending id order, truncated to
`CHUNK_SIZE`. -/
def fetchChunk (table : List ProductRow) (pred : ProductRow → Bool)
    (cursor : Nat) : List ProductRow :=
  (List.insertionSort rowLe (remaining table pred cursor)).take CHUNK_SIZE

/-- The observable emissions of the stream handler towards the SSE client:
`send(CSV_HEADER)`, `send(csvChunk)` (carrying the chunk's rows; the wire
payload is `(chunk.map rowToCsvLine).join ""`, covered by the codec theorems),
`sendEvent("progress", …)` and `sendEvent("done", …)`. -/
inductive Event where
  | header
  | dataChunk (chunk : List ProductRow)
  | progress (rowsExported totalRows : Nat)
  | doneEv (rowsExported : Nat)
deriving DecidableEq, Repr

/-- Everything one run of the stream handler does, in order within each
component: the chunk queries issued (`fetches`, each recorded with the cursor
it queried past and the rows it returned), the persisted cursor writes
(`advances`, each written together with status `PROCESSING`), every status
value written to the store (`statusWrites`), the SSE emissions (`events`),
and the loop's final local `cursor` / `rowsExported`. -/
structure RunResult where
  fetches : List (Nat × List ProductRow)
  advances : List (Nat × Nat)
  statusWrites : List JobStatus
  events : List Event
  cursor : Nat
  rowsExported : Nat
deriving DecidableEq, Repr

/-- Fallback row for the model of the JS indexing expression
`products[products.length - 1]`; the loop reads it only on a non-empty
chunk, so the fallback is never observable. -/
def defaultRow : ProductRow := ⟨0, "", "", 0, 0, "", ⟨0, 0, 0, 0, 0, 0, 0⟩⟩

/-- The `while (true)` loop of the stream handler: fetch a chunk past the
cursor; on an empty chunk write status `DONE` and emit the terminal `done`
event; otherwise emit the chunk, set `cursor` to the last row's id
(`products[products.length - 1].id`, modelled by `getLastD`), add the chunk
length to `rowsExported`, persist `(cursor, rowsExported, PROCESSING)`,
emit a progress event, and continue.  `fuel` bounds the recursion; every use
below supplies `table.length + 1`, which the fuel-adequacy lemma shows is
enough for the loop to run to its real end. -/
def exportLoop (table : List ProductRow) (pred : ProductRow → Bool)
    (total : Nat) : Nat → Nat → Nat → RunResult
  | 0, c, r => ⟨[], [], [], [], c, r⟩
  | fuel + 1, c, r =>
    let products := fetchChunk table pred c
    if products = [] then
      ⟨[(c, products)], [], [.DONE], [.doneEv r], c, r⟩
    else
      let c' := (products.getLastD defaultRow).id
      let r' := r + products.length
      let rest := exportLoop table pred total fuel c' r'
      ⟨(c, products) :: rest.fetches,
       (c', r') :: rest.advances,
       .PROCESSING :: rest.statusWrites,
       .dataChunk products :: .progress r' total :: rest.events,
       rest.cursor, rest.rowsExported⟩

/-- One invocation of the stream handler body after the job has been looked
up: the unconditional initial `status: "PROCESSING"` write, the header
emission, then the loop started from the persisted cursor / count. -/
def streamRun (table : List ProductRow) (pred : ProductRow → Bool)
    (c r total : Nat) : RunResult :=
  let L := exportLoop table pred total (table.length + 1) c r
  { L with statusWrites := .PROCESSING :: L.statusWrites,
           events := .header :: L.events }

/-- The stream handler on a looked-up job record: the predicate is rebuilt
from the stored filter snapshot, and the loop resumes from the job's
persisted `lastCursor` / `rowsExported`; the job's stored status is never
consulted. -/
def streamRunJob (table : List ProductRow) (job : ExportJob) : RunResult :=
  streamRun table (whereStream job.filters) job.lastCursor job.rowsExported
    job.totalRows

/-!  Store lemmas (claim C6). -/

/-- `advance` on a store without the job id fails with `Conflict`. -/
theorem advance_of_not_found (s : Store) (id : String) (c r : Nat)
    (st : JobStatus) (h : findJob s id = none) :
    advance s id c r st = .error .Conflict := by
  induction s with
  | nil => rfl
  | cons kv rest ih =>
    obtain ⟨k, j⟩ := kv
    by_cases hk : (k == id) = true
    · simp [findJob, hk] at h
    · simp only [findJob, hk, if_neg, Bool.false_eq_true, if_false] at h
      simp only [advance, hk, Bool.false_eq_true, if_false, ih h]

/-- `advance` on a store holding the job id succeeds and overwrites the
addressed record's cursor, count and status, whatever their old values. -/
theorem advance_of_found (s : Store) (id : String) (c r : Nat)
    (st : JobStatus) (j : ExportJob) (h : findJob s id = some j) :
    ∃ s', advance s id c r st = .ok s' ∧
      findJob s' id = some (updJob j c r st) := by
  induction s with
  | nil => simp [findJob] at h
  | cons kv rest ih =>
    obtain ⟨k, j₀⟩ := kv
    by_cases hk : (k == id) = true
    · simp only [findJob, hk, if_true, Option.some.injEq] at h
      subst h
      refine ⟨(k, updJob j₀ c r st) :: rest, ?_, ?_⟩
      · simp [advance, hk]
      · simp [findJob, hk]
    · simp only [findJob, hk, Bool.false_eq_true, if_false] at h
      obtain ⟨s', hs', hfind⟩ := ih h
      exact ⟨(k, j₀) :: s', by simp [advance, hk, hs'],
        by simp [findJob, hk, hfind]⟩

/-- Retrying an acknowledged `advance` with identical arguments rewrites the
same values: the write is idempotent. -/
theorem advance_idempotent (id : String) (c r : Nat) (st : JobStatus) :
    ∀ (s s' : Store), advance s id c r st = .ok s' →
      advance s' id c r st = .ok s' := by
  intro s
  induction s with
  | nil => intro s' h; simp [advance] at h
  | cons kv rest ih =>
    obtain ⟨k, j⟩ := kv
    intro s' h
    by_cases hk : (k == id) = true
    · simp only [advance, hk, if_true, Except.ok.injEq] at h
      subst h
      simp [advance, hk, updJob]
    · simp only [advance, hk, Bool.false_eq_true, if_false] at h
      rcases hrest : advance rest id c r st with e | rest'
      · rw [hrest] at h; simp at h
      · rw [hrest] at h
        simp only [Except.ok.injEq] at h
        subst h
        simp only [advance, hk, Bool.false_eq_true, if_false, ih rest' hrest]

/-- C6 (corrected): the cursor-advance write (`prisma.exportJob.update` in
the stream loop) fails with `Conflict` when the job no longer exists, and is
idempotent when repeated with identical arguments; but it is a plain
overwrite, not a compare-and-write: a `newCursor` smaller than the persisted
cursor is accepted and written, never rejected with `InvalidTransition`. -/
theorem advance_is_plain_overwrite (s : Store) (id : String) (c r : Nat)
    (st : JobStatus) :
    (findJob s id = none → advance s id c r st = .error .Conflict) ∧
    (∀ j, findJob s id = some j → c < j.lastCursor →
      ∃ s', advance s id c r st = .ok s' ∧
        findJob s' id = some (updJob j c r st)) ∧
    (∀ s', advance s id c r st = .ok s' → advance s' id c r st = .ok s') :=
  ⟨advance_of_not_found s id c r st,
   fun j hj _ => advance_of_found s id c r st j hj,
   fun s' h => advance_idempotent id c r st s s' h⟩

/-- A store holding one job whose persisted cursor is `5`. -/
def store5 : Store :=
  [("j1", { filters := ⟨"", "", ""⟩, status := .PROCESSING, lastCursor := 5,
            rowsExported := 5, totalRows := 5 })]

/-- Counterexample to C6 as stated: with persisted cursor `5`, the advance
write to the smaller cursor `3` succeeds (it simply overwrites) instead of
failing with `InvalidTransition`. -/
theorem advance_accepts_smaller_cursor :
    (3 : Nat) < 5 ∧
    advance store5 "j1" 3 3 .PROCESSING =
      .ok [("j1", { filters := ⟨"", "", ""⟩, status := .PROCESSING,
                    lastCursor := 3, rowsExported := 3, totalRows := 5 })] ∧
    advance store5 "j1" 3 3 .PROCESSING ≠ .error .InvalidTransition := by
  have advEq : advance store5 "j1" 3 3 .PROCESSING =
      .ok [("j1", { filters := ⟨"", "", ""⟩, status := .PROCESSING,
                    lastCursor := 3, rowsExported := 3, totalRows := 5 })] := rfl
  refine ⟨by decide, advEq, fun hcontra => ?_⟩
  rw [advEq] at hcontra
  exact Except.noConfusion hcontra

/-- Witness for `advance_is_plain_overwrite` at concrete stores: the empty
store rejects with `Conflict`, and `store5` (persisted cursor `5`) accepts a
write back to cursor `3`. -/
theorem advance_is_plain_overwrite_witness :
    advance ([] : Store) "j1" 1 1 .PROCESSING = .error .Conflict ∧
    ∃ s', advance store5 "j1" 3 3 .PROCESSING = .ok s' ∧
      findJob s' "j1" =
        some { filters := ⟨"", "", ""⟩, status := .PROCESSING, lastCursor := 3,
               rowsExported := 3, totalRows := 5 } :=
  ⟨(advance_is_plain_overwrite [] "j1" 1 1 .PROCESSING).1 rfl,
   (advance_is_plain_overwrite store5 "j1" 3 3 .PROCESSING).2.1
     { filters := ⟨"", "", ""⟩, status := .PROCESSING, lastCursor := 5,
       rowsExported := 5, totalRows := 5 } rfl (by decide)⟩

/-!  Filter-predicate lemmas (claims C9 and C10). -/

/-- C9: the job-creation route and the stream handler derive the row
predicate from the same filter snapshot by the same rule, so the `totalRows`
persisted at creation counts exactly the rows the export loop's scan
predicate matches on the stored snapshot. -/
theorem createJob_counts_with_stream_predicate :
    (∀ f p, whereCreate f p = whereStream f p) ∧
    (∀ table body, (createJob table body).totalRows =
      (table.filter (whereStream (createJob table body).filters)).length) :=
  ⟨fun _ _ => rfl, fun _ _ => rfl⟩

/-- C10: a filter field that is absent from the request body or equal to the
empty string contributes no clause to the predicate (it is not matched as
equality with `""`), and a creation request with an empty body counts every
row of the table. -/
theorem absent_or_empty_filter_is_no_constraint :
    (∀ body p, (body.category = none ∨ body.category = some "") →
      catClauseCreate (mkFilters body) p = true) ∧
    (∀ body p, (body.status = none ∨ body.status = some "") →
      statusClauseCreate (mkFilters body) p = true) ∧
    (∀ body p, (body.search = none ∨ body.search = some "") →
      searchClauseCreate (mkFilters body) p = true) ∧
    (∀ table, (createJob table ⟨none, none, none⟩).totalRows = table.length) := by
  refine ⟨?_, ?_, ?_, ?_⟩
  · rintro body p (h | h) <;> simp [catClauseCreate, mkFilters, h]
  · rintro body p (h | h) <;> simp [statusClauseCreate, mkFilters, h]
  · rintro body p (h | h) <;> simp [searchClauseCreate, mkFilters, h]
  · intro table
    show (table.filter (whereCreate (mkFilters ⟨none, none, none⟩))).length = _
    have : ∀ p, whereCreate (mkFilters ⟨none, none, none⟩) p = true := by
      intro p
      simp [whereCreate, catClauseCreate, statusClauseCreate,
        searchClauseCreate, mkFilters]
    rw [List.filter_congr (fun p _ => this p), List.filter_true]

/-- Witness for `absent_or_empty_filter_is_no_constraint`: a body with an
absent category and an explicit empty search imposes neither constraint, and
the empty body counts a concrete two-row table in full. -/
theorem absent_or_empty_filter_witness :
    catClauseCreate
      (mkFilters ⟨none, some "active", some ""⟩)
      ⟨1, "n", "Toys", 0, 0, "active", ⟨1970, 1, 1, 0, 0, 0, 0⟩⟩ = true ∧
    searchClauseCreate
      (mkFilters ⟨none, some "active", some ""⟩)
      ⟨1, "n", "Toys", 0, 0, "active", ⟨1970, 1, 1, 0, 0, 0, 0⟩⟩ = true ∧
    (createJob [⟨1, "n", "Toys", 0, 0, "active", ⟨1970, 1, 1, 0, 0, 0, 0⟩⟩,
                ⟨2, "m", "Food", 0, 0, "inactive", ⟨1970, 1, 1, 0, 0, 0, 0⟩⟩]
      ⟨none, none, none⟩).totalRows = 2 :=
  ⟨absent_or_empty_filter_is_no_constraint.1 _ _ (Or.inl rfl),
   absent_or_empty_filter_is_no_constraint.2.2.1 _ _ (Or.inr rfl),
   absent_or_empty_filter_is_no_constraint.2.2.2 _⟩

/-!  Chunk-query lemmas. -/

/-- Membership in the post-cursor result set unpacks to: in the table,
matching the predicate, and strictly past the cursor. -/
theorem mem_remaining {table : List ProductRow} {pred : ProductRow → Bool}
    {c : Nat} {p : ProductRow} (h : p ∈ remaining table pred c) :
    p ∈ table ∧ pred p = true ∧ c < p.id := by
  have h' := List.mem_filter.mp h
  refine ⟨h'.1, ?_, ?_⟩
  · exact (Bool.and_eq_true_iff.mp h'.2).1
  · exact of_decide_eq_true (Bool.and_eq_true_iff.mp h'.2).2

/-- Every row a chunk query returns lies in its post-cursor result set. -/
theorem mem_fetchChunk {table : List ProductRow} {pred : ProductRow → Bool}
    {c : Nat} {p : ProductRow} (h : p ∈ fetchChunk table pred c) :
    p ∈ remaining table pred c :=
  (List.perm_insertionSort rowLe _).subset
    ((List.take_sublist _ _).subset h)

/-- A chunk is ordered ascending by id. -/
theorem fetchChunk_sorted (table : List ProductRow) (pred : ProductRow → Bool)
    (c : Nat) : List.Sorted rowLe (fetchChunk table pred c) :=
  (List.sorted_insertionSort rowLe _).sublist (List.take_sublist _ _)

/-- A chunk returns at most `CHUNK_SIZE` rows. -/
theorem fetchChunk_length_le (table : List ProductRow)
    (pred : ProductRow → Bool) (c : Nat) :
    (fetchChunk table pred c).length ≤ CHUNK_SIZE :=
  List.length_take_le _ _

/-- The last element of a non-empty list under `getLastD` is a member. -/
theorem getLastD_mem {α : Type} {l : List α} (d : α) (h : l ≠ []) :
    l.getLastD d ∈ l := by
  rw [List.getLastD_eq_getLast?, List.getLast?_eq_getLast l h]
  exact List.getLast_mem h

/-- The ordering key of the last row of a non-empty chunk lies strictly past
the cursor the chunk was fetched with. -/
theorem getLast_fetchChunk_gt {table : List ProductRow}
    {pred : ProductRow → Bool} {c : Nat} (h : fetchChunk table pred c ≠ []) :
    c < ((fetchChunk table pred c).getLastD defaultRow).id :=
  (mem_remaining (mem_fetchChunk (getLastD_mem defaultRow h))).2.2

/-!  Loop-shape lemmas. -/

/-- One unfolding of the stream loop at positive fuel. -/
theorem exportLoop_succ (table : List ProductRow) (pred : ProductRow → Bool)
    (total fuel c r : Nat) :
    exportLoop table pred total (fuel + 1) c r =
      if fetchChunk table pred c = [] then
        ⟨[(c, fetchChunk table pred c)], [], [.DONE], [.doneEv r], c, r⟩
      else
        let products := fetchChunk table pred c
        let c' := (products.getLastD defaultRow).id
        let r' := r + products.length
        let rest := exportLoop table pred total fuel c' r'
        ⟨(c, products) :: rest.fetches,
         (c', r') :: rest.advances,
         .PROCESSING :: rest.statusWrites,
         .dataChunk products :: .progress r' total :: rest.events,
         rest.cursor, rest.rowsExported⟩ := rfl

/-- Every chunk query the loop issues is exactly the `CHUNK_SIZE`-bounded,
id-ascending scan past the cursor it recorded. -/
theorem loop_fetches_eq (table : List ProductRow) (pred : ProductRow → Bool)
    (total : Nat) : ∀ fuel c r q rs,
    (q, rs) ∈ (exportLoop table pred total fuel c r).fetches →
    rs = fetchChunk table pred q := by
  intro fuel
  induction fuel with
  | zero => intro c r q rs hmem; simp [exportLoop] at hmem
  | succ fuel ih =>
    intro c r q rs hmem
    rw [exportLoop_succ] at hmem
    by_cases hE : fetchChunk table pred c = []
    · rw [if_pos hE] at hmem
      simp only [List.mem_singleton, Prod.mk.injEq] at hmem
      rw [hmem.2, hmem.1]
    · rw [if_neg hE] at hmem
      simp only [List.mem_cons, Prod.mk.injEq] at hmem
      rcases hmem with ⟨hq, hrs⟩ | hmem
      · rw [hrs, hq]
      · exact ih _ _ _ _ hmem

/-- At positive fuel the loop's first recorded query is past the cursor it
was started with. -/
theorem loop_first_fetch (table : List ProductRow) (pred : ProductRow → Bool)
    (total fuel c r : Nat) :
    ((exportLoop table pred total (fuel + 1) c r).fetches.map Prod.fst).head? =
      some c := by
  rw [exportLoop_succ]
  by_cases hE : fetchChunk table pred c = []
  · rw [if_pos hE]; rfl
  · rw [if_neg hE]; rfl

/-- The persisted `(cursor, rowsExported)` writes of a loop run form a
non-decreasing chain starting from the values the loop was started with. -/
theorem loop_adv_chain (table : List ProductRow) (pred : ProductRow → Bool)
    (total : Nat) : ∀ fuel c r,
    List.Chain' (fun a b : Nat × Nat => a.1 ≤ b.1 ∧ a.2 ≤ b.2)
      ((c, r) :: (exportLoop table pred total fuel c r).advances) := by
  intro fuel
  induction fuel with
  | zero => intro c r; simp [exportLoop]
  | succ fuel ih =>
    intro c r
    rw [exportLoop_succ]
    by_cases hE : fetchChunk table pred c = []
    · rw [if_pos hE]; simp
    · rw [if_neg hE]
      refine List.chain'_cons.mpr ⟨⟨?_, ?_⟩, ih _ _⟩
      · exact le_of_lt (getLast_fetchChunk_gt hE)
      · exact Nat.le_add_right r _

/-- C2: within one run of the export loop on a job, the persisted
`(cursor, rowsExported)` writes are non-decreasing in both components, and
the first write is no smaller than the values read from the store at start
(so a resume never rewinds them). -/
theorem run_advances_monotone (table : List ProductRow) (job : ExportJob) :
    List.Chain' (fun a b : Nat × Nat => a.1 ≤ b.1 ∧ a.2 ≤ b.2)
      ((job.lastCursor, job.rowsExported) :: (streamRunJob table job).advances) :=
  loop_adv_chain table (whereStream job.filters) job.totalRows
    (table.length + 1) job.lastCursor job.rowsExported

/-- C1: every chunk query of an export run requests (and receives) only rows
strictly past the cursor it was issued with, matching the job's filter
predicate, ordered ascending by id, at most `CHUNK_SIZE = 1000` of them; and
the run's first query is past the persisted cursor read from the job. -/
theorem run_fetches_spec (table : List ProductRow) (job : ExportJob) :
    CHUNK_SIZE = 1000 ∧
    ((streamRunJob table job).fetches.map Prod.fst).head? =
      some job.lastCursor ∧
    (∀ q rs, (q, rs) ∈ (streamRunJob table job).fetches →
      rs = fetchChunk table (whereStream job.filters) q ∧
      rs.length ≤ CHUNK_SIZE ∧
      List.Sorted rowLe rs ∧
      (∀ p ∈ rs, whereStream job.filters p = true ∧ q < p.id)) := by
  refine ⟨rfl, ?_, ?_⟩
  · exact loop_first_fetch table (whereStream job.filters) job.totalRows
      table.length job.lastCursor job.rowsExported
  · intro q rs hmem
    have hrs := loop_fetches_eq table (whereStream job.filters) job.totalRows
      (table.length + 1) job.lastCursor job.rowsExported q rs hmem
    subst hrs
    refine ⟨rfl, fetchChunk_length_le _ _ _, fetchChunk_sorted _ _ _, ?_⟩
    intro p hp
    have h := mem_remaining (mem_fetchChunk hp)
    exact ⟨h.2.1, h.2.2⟩

/-- A one-row table and a fresh unfiltered job over it, used as concrete
inputs by several witnesses. -/
def plainRow (i : Nat) : ProductRow :=
  ⟨i, "", "", 0, 0, "active", ⟨1970, 1, 1, 0, 0, 0, 0⟩⟩

/-- The products table with ids `1..n` and trivial payloads. -/
def tableN (n : Nat) : List ProductRow :=
  (List.range n).map (fun i => plainRow (i + 1))

/-- A freshly created, unfiltered job (`PENDING`, cursor 0). -/
def freshJob (total : Nat) : ExportJob :=
  ⟨⟨"", "", ""⟩, .PENDING, 0, 0, total⟩

/-- Witness for `run_fetches_spec`: on the one-row table, the run's single
non-empty fetch queried past cursor `0` and returned the row with id `1`. -/
theorem run_fetches_spec_witness :
    (0, [plainRow 1]) ∈ (streamRunJob (tableN 1) (freshJob 1)).fetches ∧
    [plainRow 1] =
      fetchChunk (tableN 1) (whereStream (freshJob 1).filters) 0 ∧
    [plainRow 1].length ≤ CHUNK_SIZE ∧
    List.Sorted rowLe [plainRow 1] ∧
    (∀ p ∈ [plainRow 1],
      whereStream (freshJob 1).filters p = true ∧ 0 < p.id) :=
  ⟨by decide, (run_fetches_spec (tableN 1) (freshJob 1)).2.2 0 [plainRow 1]
    (by decide)⟩

/-!  Fuel adequacy: past the supplied fuel bound the loop's value no longer
depends on the fuel, because each non-empty chunk strictly shrinks the
post-cursor result set. -/

/-- Dropping an element the predicate rejects makes the filter strictly
shorter. -/
theorem length_filter_lt {α : Type} (p : α → Bool) {l : List α} {a : α}
    (ha : a ∈ l) (hpa : p a = false) : (l.filter p).length < l.length := by
  induction l with
  | nil => cases ha
  | cons b l ih =>
    rw [List.filter_cons]
    rcases List.mem_cons.mp ha with h | h
    · subst h
      rw [hpa]
      simp only [Bool.false_eq_true, if_false]
      exact Nat.lt_succ_of_le (l.length_filter_le p)
    · by_cases hb : p b = true
      · simp only [hb, if_true, List.length_cons]
        exact Nat.succ_lt_succ (ih h)
      · simp only [Bool.not_eq_true] at hb
        rw [hb]
        simp only [Bool.false_eq_true, if_false]
        exact Nat.lt_succ_of_lt (ih h)

/-- Advancing the cursor to the last id of a non-empty chunk strictly shrinks
the post-cursor result set. -/
theorem remaining_getLast_lt (table : List ProductRow)
    (pred : ProductRow → Bool) (c : Nat) (h : fetchChunk table pred c ≠ []) :
    (remaining table pred (((fetchChunk table pred c).getLastD defaultRow).id)).length <
      (remaining table pred c).length := by
  have he : (fetchChunk table pred c).getLastD defaultRow ∈ remaining table pred c :=
    mem_fetchChunk (getLastD_mem defaultRow h)
  have hc : c < ((fetchChunk table pred c).getLastD defaultRow).id :=
    (mem_remaining he).2.2
  set e := (fetchChunk table pred c).getLastD defaultRow with hedef
  have hsub : remaining table pred e.id =
      (remaining table pred c).filter (fun r => decide (e.id < r.id)) := by
    unfold remaining
    rw [List.filter_filter]
    apply List.filter_congr
    intro x _
    by_cases h2 : pred x = true
    · by_cases h1 : e.id < x.id
      · have h3 : c < x.id := Nat.lt_trans hc h1
        simp [h1, h2, h3]
      · simp [h1, h2]
    · simp only [Bool.not_eq_true] at h2
      simp [h2]
  rw [hsub]
  exact length_filter_lt _ he (by simp)

/-- At any two fuels strictly above the size of the post-cursor result set,
the loop computes the same run. -/
theorem exportLoop_fuel_congr (table : List ProductRow)
    (pred : ProductRow → Bool) (total : Nat) :
    ∀ n c r fuel₁ fuel₂, (remaining table pred c).length ≤ n →
      n < fuel₁ → n < fuel₂ →
      exportLoop table pred total fuel₁ c r =
        exportLoop table pred total fuel₂ c r := by
  intro n
  induction n using Nat.strong_induction_on with
  | _ n ih =>
    intro c r fuel₁ fuel₂ hn h1 h2
    cases fuel₁ with
    | zero => exact absurd h1 (Nat.not_lt_zero n)
    | succ f₁ =>
      cases fuel₂ with
      | zero => exact absurd h2 (Nat.not_lt_zero n)
      | succ f₂ =>
        rw [exportLoop_succ, exportLoop_succ]
        by_cases hE : fetchChunk table pred c = []
        · rw [if_pos hE, if_pos hE]
        · rw [if_neg hE, if_neg hE]
          dsimp only
          have hlt := remaining_getLast_lt table pred c hE
          have hm : (remaining table pred
              (((fetchChunk table pred c).getLastD defaultRow).id)).length < n :=
            Nat.lt_of_lt_of_le hlt hn
          rw [ih _ hm _ _ f₁ f₂ (Nat.le_refl _) (by omega) (by omega)]

/-- The job record a resumed invocation finds after a crash that happened
once the first chunk's advance write completed: same filters and totals,
status still `PROCESSING`, cursor and count from the persisted checkpoint. -/
def resumedJob (job : ExportJob) (c r : Nat) : ExportJob :=
  { job with lastCursor := c, rowsExported := r, status := .PROCESSING }

/-- C4: for a fixed table, running the export to completion in one pass ends
with the same final `(cursor, rowsExported)` as crashing after the first
persisted chunk (checkpoint `(c1, r1)`) and resuming from the persisted
state in a second invocation. -/
theorem one_pass_eq_two_pass (table : List ProductRow) (job : ExportJob)
    (c1 r1 : Nat) (rest : List (Nat × Nat))
    (h : (streamRunJob table job).advances = (c1, r1) :: rest) :
    (streamRunJob table (resumedJob job c1 r1)).cursor =
      (streamRunJob table job).cursor ∧
    (streamRunJob table (resumedJob job c1 r1)).rowsExported =
      (streamRunJob table job).rowsExported := by
  have hpred : whereStream (resumedJob job c1 r1).filters =
      whereStream job.filters := rfl
  set pred := whereStream job.filters with hpreddef
  by_cases hE : fetchChunk table pred job.lastCursor = []
  · exfalso
    have : (streamRunJob table job).advances = [] := by
      show (exportLoop table pred job.totalRows (table.length + 1)
        job.lastCursor job.rowsExported).advances = []
      rw [exportLoop_succ, if_pos hE]
    rw [this] at h
    exact List.noConfusion h
  · have hstep : (streamRunJob table job).advances =
        ((((fetchChunk table pred job.lastCursor).getLastD defaultRow).id),
          job.rowsExported + (fetchChunk table pred job.lastCursor).length) ::
          (exportLoop table pred job.totalRows table.length
            (((fetchChunk table pred job.lastCursor).getLastD defaultRow).id)
            (job.rowsExported +
              (fetchChunk table pred job.lastCursor).length)).advances := by
      show (exportLoop table pred job.totalRows (table.length + 1)
        job.lastCursor job.rowsExported).advances = _
      rw [exportLoop_succ, if_neg hE]
    rw [hstep] at h
    have hc1 : c1 = ((fetchChunk table pred job.lastCursor).getLastD defaultRow).id :=
      (Prod.mk.injEq _ _ _ _ ▸ (List.cons.injEq _ _ _ _ ▸ h).1).1.symm
    have hr1 : r1 = job.rowsExported +
        (fetchChunk table pred job.lastCursor).length :=
      (Prod.mk.injEq _ _ _ _ ▸ (List.cons.injEq _ _ _ _ ▸ h).1).2.symm
    subst hc1; subst hr1
    have hfuel : exportLoop table pred job.totalRows (table.length + 1)
        (((fetchChunk table pred job.lastCursor).getLastD defaultRow).id)
        (job.rowsExported + (fetchChunk table pred job.lastCursor).length) =
        exportLoop table pred job.totalRows table.length
        (((fetchChunk table pred job.lastCursor).getLastD defaultRow).id)
        (job.rowsExported + (fetchChunk table pred job.lastCursor).length) := by
      apply exportLoop_fuel_congr table pred job.totalRows
        ((remaining table pred
          (((fetchChunk table pred job.lastCursor).getLastD defaultRow).id)).length)
      · exact Nat.le_refl _
      · have h1 := remaining_getLast_lt table pred job.lastCursor hE
        have h2 : (remaining table pred job.lastCursor).length ≤ table.length :=
          List.length_filter_le _ _
        omega
      · have h1 := remaining_getLast_lt table pred job.lastCursor hE
        have h2 : (remaining table pred job.lastCursor).length ≤ table.length :=
          List.length_filter_le _ _
        omega
    constructor
    · show (exportLoop table pred job.totalRows (table.length + 1)
        (resumedJob job _ _).lastCursor (resumedJob job _ _).rowsExported).cursor = _
      rw [show (resumedJob job (((fetchChunk table pred
          job.lastCursor).getLastD defaultRow).id) (job.rowsExported +
          (fetchChunk table pred job.lastCursor).length)).lastCursor =
          ((fetchChunk table pred job.lastCursor).getLastD defaultRow).id from rfl]
      rw [show (resumedJob job (((fetchChunk table pred
          job.lastCursor).getLastD defaultRow).id) (job.rowsExported +
          (fetchChunk table pred job.lastCursor).length)).rowsExported =
          job.rowsExported +
            (fetchChunk table pred job.lastCursor).length from rfl]
      rw [hfuel]
      show _ = (exportLoop table pred job.totalRows (table.length + 1)
        job.lastCursor job.rowsExported).cursor
      rw [exportLoop_succ, if_neg hE]
    · show (exportLoop table pred job.totalRows (table.length + 1)
        (resumedJob job _ _).lastCursor (resumedJob job _ _).rowsExported).rowsExported = _
      rw [show (resumedJob job (((fetchChunk table pred
          job.lastCursor).getLastD defaultRow).id) (job.rowsExported +
          (fetchChunk table pred job.lastCursor).length)).lastCursor =
          ((fetchChunk table pred job.lastCursor).getLastD defaultRow).id from rfl]
      rw [show (resumedJob job (((fetchChunk table pred
          job.lastCursor).getLastD defaultRow).id) (job.rowsExported +
          (fetchChunk table pred job.lastCursor).length)).rowsExported =
          job.rowsExported +
            (fetchChunk table pred job.lastCursor).length from rfl]
      rw [hfuel]
      show _ = (exportLoop table pred job.totalRows (table.length + 1)
        job.lastCursor job.rowsExported).rowsExported
      rw [exportLoop_succ, if_neg hE]

/-- Witness for `one_pass_eq_two_pass`: on the one-row table the single pass
persists checkpoint `(1, 1)`; resuming from that persisted state ends at the
same final cursor and count as the uninterrupted pass. -/
theorem one_pass_eq_two_pass_witness :
    (streamRunJob (tableN 1) (resumedJob (freshJob 1) 1 1)).cursor =
      (streamRunJob (tableN 1) (freshJob 1)).cursor ∧
    (streamRunJob (tableN 1) (resumedJob (freshJob 1) 1 1)).rowsExported =
      (streamRunJob (tableN 1) (freshJob 1)).rowsExported :=
  one_pass_eq_two_pass (tableN 1) (freshJob 1) 1 1 [] (by decide)

/-!  Empty-dataset behaviour (claim C7). -/

/-- If no table row matches the filter predicate, the post-cursor result set
is empty at every cursor. -/
theorem remaining_empty_of_filter_empty {table : List ProductRow}
    {pred : ProductRow → Bool} (h : table.filter pred = []) (c : Nat) :
    remaining table pred c = [] := by
  unfold remaining
  rw [List.filter_eq_nil_iff]
  intro a ha
  have := List.filter_eq_nil_iff.mp h a ha
  simp only [Bool.and_eq_true, decide_eq_true_eq, not_and]
  intro hpa
  exact absurd hpa this

/-- C7: on a job whose filters match zero table rows (fresh job: cursor 0,
rowsExported 0, totalRows 0), the run performs exactly one fetch (which
returns no rows), emits exactly the header and one terminal `done` event —
no progress events, no data chunks — and its status writes end in `DONE`. -/
theorem empty_dataset_run (table : List ProductRow) (job : ExportJob)
    (hc : job.lastCursor = 0) (hr : job.rowsExported = 0)
    (ht : job.totalRows = 0)
    (hf : table.filter (whereStream job.filters) = []) :
    streamRunJob table job =
      ⟨[(0, [])], [], [.PROCESSING, .DONE], [.header, .doneEv 0], 0, 0⟩ := by
  have hrem := remaining_empty_of_filter_empty hf 0
  have hE : fetchChunk table (whereStream job.filters) 0 = [] := by
    unfold fetchChunk
    rw [hrem]
    rfl
  show streamRun table (whereStream job.filters) job.lastCursor
    job.rowsExported job.totalRows = _
  rw [hc, hr, ht]
  unfold streamRun
  rw [exportLoop_succ, if_pos hE, hE]

/-- Witness for `empty_dataset_run`: a category filter matching nothing in
the one-row table drives the fresh job straight to `DONE` with only the
header and `done` emissions. -/
theorem empty_dataset_run_witness :
    streamRunJob (tableN 1) ⟨⟨"Toys", "", ""⟩, .PENDING, 0, 0, 0⟩ =
      ⟨[(0, [])], [], [.PROCESSING, .DONE], [.header, .doneEv 0], 0, 0⟩ :=
  empty_dataset_run (tableN 1) ⟨⟨"Toys", "", ""⟩, .PENDING, 0, 0, 0⟩
    rfl rfl rfl (by decide)

/-!  `DONE` is not terminal (claim C3). -/

/-- A job already marked `DONE`, with its cursor at the end of the one-row
table. -/
def doneJob : ExportJob := ⟨⟨"", "", ""⟩, .DONE, 1, 1, 1⟩

/-- Counterexample to C3 as stated: starting the export stream on a `DONE`
job writes `PROCESSING` to the store (the initial status write is
unconditional), so an operation of the core does move a `Done` job's status
out of `Done`. -/
theorem done_job_is_rewritten_to_processing :
    doneJob.status = .DONE ∧
    (streamRunJob (tableN 1) doneJob).statusWrites.head? =
      some .PROCESSING ∧
    ¬ (∀ s ∈ (streamRunJob (tableN 1) doneJob).statusWrites, s = .DONE) := by
  refine ⟨rfl, rfl, fun hall => ?_⟩
  have := hall .PROCESSING (by decide)
  exact JobStatus.noConfusion this

/-- C3 (corrected): starting the export stream on a `DONE` job first
unconditionally rewrites its status to `PROCESSING`; when no matching rows
remain past its cursor the run immediately fetches an empty chunk and writes
`DONE` again, so the run still ends with the job in `DONE`, but `Done` is not
terminal during the run. -/
theorem stream_on_done_job (table : List ProductRow) (job : ExportJob)
    (hs : job.status = .DONE) :
    (streamRunJob table job).statusWrites.head? = some .PROCESSING ∧
    (remaining table (whereStream job.filters) job.lastCursor = [] →
      (streamRunJob table job).statusWrites = [.PROCESSING, .DONE]) := by
  constructor
  · rfl
  · intro hrem
    have hE : fetchChunk table (whereStream job.filters) job.lastCursor = [] := by
      unfold fetchChunk
      rw [hrem]
      rfl
    show (streamRun table (whereStream job.filters) job.lastCursor
      job.rowsExported job.totalRows).statusWrites = _
    unfold streamRun
    rw [exportLoop_succ, if_pos hE]

/-- Witness for `stream_on_done_job` on the concrete `DONE` job over the
one-row table: the first status write is `PROCESSING` and the full status
write sequence is `[PROCESSING, DONE]`. -/
theorem stream_on_done_job_witness :
    (streamRunJob (tableN 1) doneJob).statusWrites.head? =
      some .PROCESSING ∧
    (streamRunJob (tableN 1) doneJob).statusWrites = [.PROCESSING, .DONE] :=
  ⟨(stream_on_done_job (tableN 1) doneJob rfl).1,
   (stream_on_done_job (tableN 1) doneJob rfl).2 (by decide)⟩

/-!  Closed-form behaviour of the loop over the id-range table `tableN`
(claim C8). -/

/-- The unfiltered predicate (all filter fields empty) matches every row. -/
theorem whereStream_empty_filters (p : ProductRow) :
    whereStream ⟨"", "", ""⟩ p = true := rfl

/-- `tableN` is the id range `[1, …, n]` mapped through `plainRow`. -/
theorem tableN_eq (n : Nat) : tableN n = (List.range' 1 n).map plainRow := by
  unfold tableN
  rw [List.range'_eq_map_range, List.map_map]
  apply List.map_congr_left
  intro i _
  show plainRow (i + 1) = plainRow (1 + i)
  rw [Nat.add_comm]

/-- `tableN n` has `n` rows. -/
theorem tableN_length (n : Nat) : (tableN n).length = n := by
  simp [tableN]

/-- `take` on an id range truncates the range. -/
theorem take_range' : ∀ (len k s : Nat),
    (List.range' s len).take k = List.range' s (min k len) := by
  intro len
  induction len with
  | zero => intro k s; simp
  | succ len ih =>
    intro k s
    cases k with
    | zero => simp
    | succ k =>
      rw [List.range'_succ, List.take_succ_cons, ih k (s + 1),
        ← List.range'_succ]
      congr 1
      omega

/-- Filtering an id range by `c < ·` keeps its upper part. -/
theorem filter_gt_range' : ∀ (len s c : Nat),
    (List.range' s len).filter (fun x => decide (c < x)) =
      if c < s then List.range' s len
      else List.range' (c + 1) (s + len - (c + 1)) := by
  intro len
  induction len with
  | zero =>
    intro s c
    by_cases h : c < s
    · simp [h]
    · rw [if_neg h, show s + 0 - (c + 1) = 0 from by omega]
      simp
  | succ len ih =>
    intro s c
    rw [List.range'_succ, List.filter_cons]
    by_cases h : c < s
    · rw [if_pos h, if_pos (by exact decide_eq_true h), ih, if_pos (by omega),
        ← List.range'_succ]
    · rw [if_neg h, if_neg (by simpa using h), ih]
      by_cases h2 : c < s + 1
      · rw [if_pos h2]
        have hcs : c = s := by omega
        subst hcs
        congr 1
        omega
      · rw [if_neg h2]
        congr 1
        omega

/-- Post-cursor result set over `tableN`: the ids from `c + 1` up to `n`. -/
theorem remaining_tableN (n c : Nat) :
    remaining (tableN n) (whereStream ⟨"", "", ""⟩) c =
      (List.range' (c + 1) (n - c)).map plainRow := by
  unfold remaining
  rw [List.filter_congr
    (fun r _ => by rw [whereStream_empty_filters, Bool.true_and])]
  rw [tableN_eq, List.filter_map]
  rw [show ((fun r : ProductRow => decide (c < r.id)) ∘ plainRow) =
    (fun x => decide (c < x)) from rfl]
  rw [filter_gt_range']
  by_cases h : c < 1
  · rw [if_pos h]
    have hc : c = 0 := by omega
    subst hc
    rfl
  · rw [if_neg h]
    congr 2
    omega

/-- An id-range table slice is sorted ascending by id. -/
theorem sorted_range'_map (s len : Nat) :
    List.Sorted rowLe ((List.range' s len).map plainRow) := by
  rw [List.Sorted, List.pairwise_map]
  exact (List.pairwise_lt_range' ..).imp (fun h => Nat.le_of_lt h)

/-- Chunk query over `tableN`: the next `min CHUNK_SIZE (n - c)` ids past the
cursor. -/
theorem fetchChunk_tableN (n c : Nat) :
    fetchChunk (tableN n) (whereStream ⟨"", "", ""⟩) c =
      (List.range' (c + 1) (min CHUNK_SIZE (n - c))).map plainRow := by
  unfold fetchChunk
  rw [remaining_tableN,
    List.Sorted.insertionSort_eq (sorted_range'_map (c + 1) (n - c)),
    ← List.map_take, take_range']

/-- Last element of a non-empty id-range slice. -/
theorem getLastD_range'_map : ∀ (k s : Nat) (d : ProductRow),
    ((List.range' s (k + 1)).map plainRow).getLastD d = plainRow (s + k) := by
  intro k
  induction k with
  | zero => intro s d; simp
  | succ k ih =>
    intro s d
    rw [List.range'_succ, List.map_cons, List.getLastD_cons, ih (s + 1)]
    congr 1
    omega

/-- One non-empty iteration of the loop over `tableN`: with `c < n`, the
chunk is the ids `c + 1 … c + k` for `k = min CHUNK_SIZE (n - c)`, and the
loop persists `(c + k, r + k)` before continuing. -/
theorem exportLoop_tableN_step (n total fuel c r : Nat) (hcn : c < n) :
    exportLoop (tableN n) (whereStream ⟨"", "", ""⟩) total (fuel + 1) c r =
      (let k := min CHUNK_SIZE (n - c)
       let rest := exportLoop (tableN n) (whereStream ⟨"", "", ""⟩) total fuel
         (c + k) (r + k)
       ⟨(c, (List.range' (c + 1) k).map plainRow) :: rest.fetches,
        (c + k, r + k) :: rest.advances,
        .PROCESSING :: rest.statusWrites,
        .dataChunk ((List.range' (c + 1) k).map plainRow) ::
          .progress (r + k) total :: rest.events,
        rest.cursor, rest.rowsExported⟩) := by
  have hk : 1 ≤ min CHUNK_SIZE (n - c) := by
    have h1 : 1 ≤ n - c := by omega
    have h2 : 1 ≤ CHUNK_SIZE := by decide
    omega
  rw [exportLoop_succ, fetchChunk_tableN]
  have hne : ((List.range' (c + 1) (min CHUNK_SIZE (n - c))).map plainRow) ≠
      [] := by
    apply List.ne_nil_of_length_pos
    simp only [List.length_map, List.length_range']
    omega
  rw [if_neg hne]
  dsimp only
  have hlast : (((List.range' (c + 1)
      (min CHUNK_SIZE (n - c))).map plainRow).getLastD defaultRow).id =
      c + min CHUNK_SIZE (n - c) := by
    obtain ⟨k', hk'⟩ : ∃ k', min CHUNK_SIZE (n - c) = k' + 1 :=
      ⟨min CHUNK_SIZE (n - c) - 1, by omega⟩
    rw [hk', getLastD_range'_map]
    show c + 1 + k' = c + (k' + 1)
    omega
  have hlen : ((List.range' (c + 1)
      (min CHUNK_SIZE (n - c))).map plainRow).length =
      min CHUNK_SIZE (n - c) := by
    simp
  rw [hlast, hlen]

/-- The terminating iteration over `tableN`: once the cursor has reached `n`
the chunk query returns no rows and the loop finishes with `DONE`. -/
theorem exportLoop_tableN_done (n total fuel c r : Nat) (hcn : n ≤ c) :
    exportLoop (tableN n) (whereStream ⟨"", "", ""⟩) total (fuel + 1) c r =
      ⟨[(c, [])], [], [.DONE], [.doneEv r], c, r⟩ := by
  have hchunk : fetchChunk (tableN n) (whereStream ⟨"", "", ""⟩) c = [] := by
    rw [fetchChunk_tableN, show n - c = 0 from by omega]
    rfl
  rw [exportLoop_succ, if_pos hchunk, hchunk]

/-- C8: on a fresh unfiltered job over a 2,500-row table the run's chunk
queries return 1000, 1000, 500 and finally 0 rows (three non-empty fetches,
then the empty fetch that ends the loop), exactly three cursor advances are
persisted, the run ends with `rowsExported = 2500`, and the status writes end
in `DONE`; and over a table of exactly `CHUNK_SIZE` rows the run performs
exactly one non-empty fetch followed by one empty fetch before `DONE`. -/
theorem scenario_2500_and_chunk_boundary :
    ((streamRunJob (tableN 2500) (freshJob 2500)).fetches.map
        (fun f => f.2.length) = [1000, 1000, 500, 0] ∧
      (streamRunJob (tableN 2500) (freshJob 2500)).advances =
        [(1000, 1000), (2000, 2000), (2500, 2500)] ∧
      (streamRunJob (tableN 2500) (freshJob 2500)).rowsExported = 2500 ∧
      (streamRunJob (tableN 2500) (freshJob 2500)).statusWrites =
        [.PROCESSING, .PROCESSING, .PROCESSING, .PROCESSING, .DONE]) ∧
    ((streamRunJob (tableN 1000) (freshJob 1000)).fetches.map
        (fun f => f.2.length) = [1000, 0] ∧
      (streamRunJob (tableN 1000) (freshJob 1000)).statusWrites =
        [.PROCESSING, .PROCESSING, .DONE]) := by
  have h3 : exportLoop (tableN 2500) (whereStream ⟨"", "", ""⟩) 2500 2498
      2500 2500 = ⟨[(2500, [])], [], [.DONE], [.doneEv 2500], 2500, 2500⟩ := by
    rw [show (2498 : Nat) = 2497 + 1 from rfl]
    exact exportLoop_tableN_done 2500 2500 2497 2500 2500 (by norm_num)
  have h2 : exportLoop (tableN 2500) (whereStream ⟨"", "", ""⟩) 2500 2499
      2000 2000 =
      ⟨[(2000, (List.range' 2001 500).map plainRow), (2500, [])],
       [(2500, 2500)], [.PROCESSING, .DONE],
       [.dataChunk ((List.range' 2001 500).map plainRow),
        .progress 2500 2500, .doneEv 2500], 2500, 2500⟩ := by
    rw [show (2499 : Nat) = 2498 + 1 from rfl,
      exportLoop_tableN_step 2500 2500 2498 2000 2000 (by norm_num)]
    dsimp only
    rw [show min CHUNK_SIZE (2500 - 2000) = 500 from rfl,
      show (2000 : Nat) + 500 = 2500 from rfl, h3]
  have h1 : exportLoop (tableN 2500) (whereStream ⟨"", "", ""⟩) 2500 2500
      1000 1000 =
      ⟨[(1000, (List.range' 1001 1000).map plainRow),
        (2000, (List.range' 2001 500).map plainRow), (2500, [])],
       [(2000, 2000), (2500, 2500)],
       [.PROCESSING, .PROCESSING, .DONE],
       [.dataChunk ((List.range' 1001 1000).map plainRow),
        .progress 2000 2500,
        .dataChunk ((List.range' 2001 500).map plainRow),
        .progress 2500 2500, .doneEv 2500], 2500, 2500⟩ := by
    rw [show (2500 : Nat) = 2499 + 1 from rfl,
      exportLoop_tableN_step 2500 2500 2499 1000 1000 (by norm_num)]
    dsimp only
    rw [show min CHUNK_SIZE (2500 - 1000) = 1000 from rfl,
      show (1000 : Nat) + 1000 = 2000 from rfl, h2]
  have h0 : exportLoop (tableN 2500) (whereStream ⟨"", "", ""⟩) 2500
      (2500 + 1) 0 0 =
      ⟨[(0, (List.range' 1 1000).map plainRow),
        (1000, (List.range' 1001 1000).map plainRow),
        (2000, (List.range' 2001 500).map plainRow), (2500, [])],
       [(1000, 1000), (2000, 2000), (2500, 2500)],
       [.PROCESSING, .PROCESSING, .PROCESSING, .DONE],
       [.dataChunk ((List.range' 1 1000).map plainRow),
        .progress 1000 2500,
        .dataChunk ((List.range' 1001 1000).map plainRow),
        .progress 2000 2500,
        .dataChunk ((List.range' 2001 500).map plainRow),
        .progress 2500 2500, .doneEv 2500], 2500, 2500⟩ := by
    rw [exportLoop_tableN_step 2500 2500 2500 0 0 (by norm_num)]
    dsimp only
    rw [show min CHUNK_SIZE (2500 - 0) = 1000 from rfl,
      show (0 : Nat) + 1000 = 1000 from rfl, h1]
  have hrun : streamRunJob (tableN 2500) (freshJob 2500) =
      ⟨[(0, (List.range' 1 1000).map plainRow),
        (1000, (List.range' 1001 1000).map plainRow),
        (2000, (List.range' 2001 500).map plainRow), (2500, [])],
       [(1000, 1000), (2000, 2000), (2500, 2500)],
       [.PROCESSING, .PROCESSING, .PROCESSING, .PROCESSING, .DONE],
       [.header,
        .dataChunk ((List.range' 1 1000).map plainRow),
        .progress 1000 2500,
        .dataChunk ((List.range' 1001 1000).map plainRow),
        .progress 2000 2500,
        .dataChunk ((List.range' 2001 500).map plainRow),
        .progress 2500 2500, .doneEv 2500], 2500, 2500⟩ := by
    show streamRun (tableN 2500) (whereStream ⟨"", "", ""⟩) 0 0 2500 = _
    unfold streamRun
    rw [tableN_length, h0]
  have g1 : exportLoop (tableN 1000) (whereStream ⟨"", "", ""⟩) 1000
      (1000 + 1) 0 0 =
      ⟨[(0, (List.range' 1 1000).map plainRow), (1000, [])],
       [(1000, 1000)], [.PROCESSING, .DONE],
       [.dataChunk ((List.range' 1 1000).map plainRow),
        .progress 1000 1000, .doneEv 1000], 1000, 1000⟩ := by
    rw [exportLoop_tableN_step 1000 1000 1000 0 0 (by norm_num)]
    dsimp only
    rw [show min CHUNK_SIZE (1000 - 0) = 1000 from rfl,
      show (0 : Nat) + 1000 = 1000 from rfl,
      show (1000 : Nat) = 999 + 1 from rfl,
      exportLoop_tableN_done 1000 1000 999 1000 1000 (by norm_num)]
  have grun : streamRunJob (tableN 1000) (freshJob 1000) =
      ⟨[(0, (List.range' 1 1000).map plainRow), (1000, [])],
       [(1000, 1000)], [.PROCESSING, .PROCESSING, .DONE],
       [.header, .dataChunk ((List.range' 1 1000).map plainRow),
        .progress 1000 1000, .doneEv 1000], 1000, 1000⟩ := by
    show streamRun (tableN 1000) (whereStream ⟨"", "", ""⟩) 0 0 1000 = _
    unfold streamRun
    rw [tableN_length, g1]
  refine ⟨⟨?_, ?_, ?_, ?_⟩, ?_, ?_⟩
  · rw [hrun]; simp
  · rw [hrun]
  · rw [hrun]
  · rw [hrun]
  · rw [grun]; simp
  · rw [grun]

/-!  CSV round trip (claim C5).  The strategy: every encoded field passes
unchanged through the quote-parity splitter (`PassThru`), unquoted newlines
and commas separate records and fields, and quoted-field decoding inverts the
quote doubling. -/

/-- `modifyHead` twice composes. -/
theorem modifyHead_comp {α : Type} (f g : α → α) (l : List α) :
    (l.modifyHead f).modifyHead g = l.modifyHead (fun a => g (f a)) := by
  cases l <;> rfl

/-- `modifyHead` keeps a list non-empty. -/
theorem modifyHead_ne_nil {α : Type} {l : List α} (h : l ≠ []) (f : α → α) :
    l.modifyHead f ≠ [] := by
  cases l with
  | nil => exact absurd rfl h
  | cons a t => simp

/-- The quote-parity splitter never returns the empty list of pieces. -/
theorem splitQAux_ne_nil (d : Char) : ∀ (b : Bool) (l : List Char),
    splitQAux d b l ≠ [] := by
  intro b l
  induction l generalizing b with
  | nil => simp [splitQAux]
  | cons c rest ih =>
    simp only [splitQAux]
    by_cases hc : c = '"'
    · rw [if_pos hc]
      exact modifyHead_ne_nil (ih (!b)) _
    · rw [if_neg hc]
      by_cases hd : (b = false ∧ c = d)
      · rw [if_pos hd]
        simp
      · rw [if_neg hd]
        exact modifyHead_ne_nil (ih b) _

/-- Step equation of the splitter: a quote toggles the parity and joins the
first piece. -/
theorem splitQAux_cons_quote (d : Char) (b : Bool) (rest : List Char) :
    splitQAux d b ('"' :: rest) =
      (splitQAux d (!b) rest).modifyHead (List.cons '"') := rfl

/-- Step equation of the field decoder on a doubled quote. -/
theorem collapseQuotes_cons_quotes (l : List Char) :
    collapseQuotes ('"' :: '"' :: l) = '"' :: collapseQuotes l := rfl

/-- Step equation of the field decoder on an ordinary character. -/
theorem collapseQuotes_cons_safe {c : Char} (hc : c ≠ '"') (r : List Char) :
    collapseQuotes (c :: r) = c :: collapseQuotes r := by
  rw [collapseQuotes.eq_def]
  dsimp only
  rw [if_neg hc]

/-- `xs` passes through the splitter: splitting `xs ++ ys` prepends `xs` to
the first piece of splitting `ys`. -/
def PassThru (d : Char) (xs : List Char) : Prop :=
  ∀ ys, splitQAux d false (xs ++ ys) =
    (splitQAux d false ys).modifyHead (fun t => xs ++ t)

theorem passThru_nil (d : Char) : PassThru d [] := by
  intro ys
  rw [List.nil_append]
  cases h : splitQAux d false ys with
  | nil => rfl
  | cons a t => simp

theorem passThru_append {d : Char} {xs zs : List Char} (hx : PassThru d xs)
    (hz : PassThru d zs) : PassThru d (xs ++ zs) := by
  intro ys
  rw [List.append_assoc, hx (zs ++ ys), hz ys, modifyHead_comp]
  congr 1
  funext t
  rw [List.append_assoc]

theorem passThru_cons_safe {d c : Char} (hcq : c ≠ '"') (hcd : c ≠ d)
    {xs : List Char} (h : PassThru d xs) : PassThru d (c :: xs) := by
  intro ys
  rw [List.cons_append]
  simp only [splitQAux]
  rw [if_neg hcq, if_neg (fun hand => hcd hand.2), h ys, modifyHead_comp]
  rfl

theorem passThru_safe {d : Char} : ∀ xs : List Char,
    (∀ c ∈ xs, c ≠ '"' ∧ c ≠ d) → PassThru d xs := by
  intro xs
  induction xs with
  | nil => intro _; exact passThru_nil d
  | cons c xs ih =>
    intro h
    exact passThru_cons_safe (h c (List.mem_cons_self c xs)).1
      (h c (List.mem_cons_self c xs)).2
      (ih fun c' hc' => h c' (List.mem_cons_of_mem c hc'))

/-- Inside a quoted region, the doubled-quote image of `s` followed by the
closing quote is consumed as one piece. -/
theorem splitQAux_quoted (d : Char) : ∀ (s ys : List Char),
    splitQAux d true (doubleQuotes s ++ '"' :: ys) =
      (splitQAux d false ys).modifyHead
        (fun t => doubleQuotes s ++ '"' :: t) := by
  intro s
  induction s with
  | nil =>
    intro ys
    show splitQAux d true ('"' :: ys) = _
    rw [splitQAux_cons_quote]
    rfl
  | cons c s ih =>
    intro ys
    by_cases hc : c = '"'
    · subst hc
      rw [show doubleQuotes ('"' :: s) = '"' :: '"' :: doubleQuotes s from by
        simp [doubleQuotes]]
      rw [List.cons_append, List.cons_append, splitQAux_cons_quote,
        splitQAux_cons_quote]
      simp only [Bool.not_true, Bool.not_false]
      rw [ih ys, modifyHead_comp, modifyHead_comp]
      rfl
    · rw [show doubleQuotes (c :: s) = c :: doubleQuotes s from by
        simp [doubleQuotes, hc]]
      rw [List.cons_append]
      simp only [splitQAux]
      rw [if_neg hc, if_neg (fun hand => Bool.noConfusion hand.1), ih ys,
        modifyHead_comp]
      rfl

/-- A whole quoted field passes through the splitter. -/
theorem passThru_quoted (d : Char) (s : List Char) :
    PassThru d ('"' :: (doubleQuotes s ++ ['"'])) := by
  intro ys
  rw [List.cons_append, List.append_assoc, List.singleton_append,
    splitQAux_cons_quote]
  simp only [Bool.not_false]
  rw [splitQAux_quoted d s ys, modifyHead_comp]
  congr 1
  funext t
  simp [List.append_assoc]

/-- An unquoted delimiter starts a new piece. -/
theorem splitQAux_delim {d : Char} (hd : d ≠ '"') (ys : List Char) :
    splitQAux d false (d :: ys) = [] :: splitQAux d false ys := by
  simp only [splitQAux]
  rw [if_neg hd]
  simp

/-- A pass-through piece followed by an unquoted delimiter is one complete
piece of the split. -/
theorem splitQAux_field {d : Char} (hd : d ≠ '"') {x : List Char}
    (hx : PassThru d x) (ys : List Char) :
    splitQAux d false (x ++ d :: ys) = x :: splitQAux d false ys := by
  rw [hx (d :: ys), splitQAux_delim hd ys]
  show (x ++ []) :: _ = _
  rw [List.append_nil]

/-- A final pass-through piece is the single last piece of the split. -/
theorem splitQAux_last {d : Char} {x : List Char} (hx : PassThru d x) :
    splitQAux d false x = [x] := by
  have h := hx []
  rw [List.append_nil] at h
  rw [h]
  show [x ++ []] = [x]
  rw [List.append_nil]

/-- Decoding inverts quote doubling. -/
theorem collapseQuotes_doubleQuotes : ∀ l : List Char,
    collapseQuotes (doubleQuotes l ++ ['"']) = l := by
  intro l
  induction l with
  | nil => rfl
  | cons c l ih =>
    by_cases hc : c = '"'
    · subst hc
      rw [show doubleQuotes ('"' :: l) = '"' :: '"' :: doubleQuotes l from by
        simp [doubleQuotes]]
      show collapseQuotes ('"' :: '"' :: (doubleQuotes l ++ ['"'])) = _
      rw [collapseQuotes_cons_quotes, ih]
    · rw [show doubleQuotes (c :: l) = c :: doubleQuotes l from by
        simp [doubleQuotes, hc]]
      show collapseQuotes (c :: (doubleQuotes l ++ ['"'])) = _
      rw [collapseQuotes_cons_safe hc, ih]

/-- Decoding a quoted field recovers the original field value. -/
theorem unescapeField_quoted (s : List Char) :
    unescapeField ('"' :: (doubleQuotes s ++ ['"'])) = ⟨s⟩ := by
  unfold unescapeField
  rw [if_pos (show ('"' :: (doubleQuotes s ++ ['"'])).head? = some '"'
    from rfl)]
  show (⟨collapseQuotes (doubleQuotes s ++ ['"'])⟩ : String) = _
  rw [collapseQuotes_doubleQuotes]

/-!  Character safety: the formatter outputs for ids, quantities, prices and
timestamps never contain a comma, double quote or newline, so those fields
pass through the splitter verbatim and decode to themselves. -/

/-- A character needing no CSV escaping. -/
abbrev SafeChar (c : Char) : Prop := c ≠ ',' ∧ c ≠ '"' ∧ c ≠ '\n'

theorem safe_append {l1 l2 : List Char} (h1 : ∀ c ∈ l1, SafeChar c)
    (h2 : ∀ c ∈ l2, SafeChar c) : ∀ c ∈ l1 ++ l2, SafeChar c := by
  intro c hc
  rcases List.mem_append.mp hc with h | h
  · exact h1 c h
  · exact h2 c h

theorem safe_cons {a : Char} {l : List Char} (ha : SafeChar a)
    (h : ∀ c ∈ l, SafeChar c) : ∀ c ∈ a :: l, SafeChar c := by
  intro c hc
  rcases List.mem_cons.mp hc with h' | h'
  · rw [h']; exact ha
  · exact h c h'

theorem digitChar_safe (n : Nat) : SafeChar (digitChar n) := by
  unfold digitChar
  repeat' split
  all_goals decide

theorem natDigits_safe (n : Nat) : ∀ c ∈ natDigits n, SafeChar c := by
  induction n using Nat.strong_induction_on with
  | _ n ih =>
    rw [natDigits]
    split
    · intro c hc
      rw [List.mem_singleton] at hc
      rw [hc]
      exact digitChar_safe _
    · refine safe_append (ih _ (Nat.div_lt_self (by omega) (by omega))) ?_
      intro c hc
      rw [List.mem_singleton] at hc
      rw [hc]
      exact digitChar_safe _

theorem replicate_zero_safe (k : Nat) :
    ∀ c ∈ List.replicate k '0', SafeChar c := by
  intro c hc
  rw [List.eq_of_mem_replicate hc]
  decide

theorem padNum_safe (w n : Nat) : ∀ c ∈ padNum w n, SafeChar c :=
  safe_append (replicate_zero_safe _) (natDigits_safe n)

theorem natToString_safe (n : Nat) : ∀ c ∈ (natToString n).data, SafeChar c :=
  natDigits_safe n

theorem toFixed2_safe (cents : Nat) :
    ∀ c ∈ (toFixed2 cents).data, SafeChar c :=
  safe_append (natDigits_safe _) (@safe_cons '.' _ (by decide) (padNum_safe 2 _))

theorem toISOString_safe (d : DateTime) :
    ∀ c ∈ (toISOString d).data, SafeChar c :=
  safe_append (safe_append (safe_append (safe_append (safe_append
    (safe_append (safe_append (padNum_safe 4 _)
      (@safe_cons '-' _ (by decide) (padNum_safe 2 _)))
      (@safe_cons '-' _ (by decide) (padNum_safe 2 _)))
      (@safe_cons 'T' _ (by decide) (padNum_safe 2 _)))
      (@safe_cons ':' _ (by decide) (padNum_safe 2 _)))
      (@safe_cons ':' _ (by decide) (padNum_safe 2 _)))
      (@safe_cons '.' _ (by decide) (padNum_safe 3 _)))
      (by decide)

/-!  The two branches of `escapeCsv`, and the decode inverse. -/

/-- Characters of a field the escaper leaves unquoted are safe. -/
theorem safe_of_not_contains {s : String}
    (h : ¬(s.data.contains ',' || s.data.contains '"' ||
      s.data.contains '\n') = true) : ∀ c ∈ s.data, SafeChar c := by
  intro c hc
  simp only [Bool.or_eq_true, not_or, List.elem_iff] at h
  refine ⟨?_, ?_, ?_⟩ <;> intro he <;> subst he
  · exact h.1.1 hc
  · exact h.1.2 hc
  · exact h.2 hc

/-- A field made of safe characters passes through the splitter for both the
comma and the newline delimiter. -/
theorem passThru_of_safe {d : Char} (hd : d = ',' ∨ d = '\n')
    {l : List Char} (h : ∀ c ∈ l, SafeChar c) : PassThru d l := by
  apply passThru_safe
  intro c hc
  refine ⟨(h c hc).2.1, ?_⟩
  rcases hd with h' | h' <;> rw [h']
  · exact (h c hc).1
  · exact (h c hc).2.2

/-- The escaped image of any field passes through the splitter. -/
theorem escapeCsv_passThru {d : Char} (hd : d = ',' ∨ d = '\n')
    (x : String) : PassThru d (escapeCsv x).data := by
  unfold escapeCsv
  split
  · exact passThru_quoted d x.data
  · next h => exact passThru_of_safe hd (safe_of_not_contains h)

/-- Decoding a safe raw field is the identity. -/
theorem unescapeField_of_safe {l : List Char} (h : ∀ c ∈ l, SafeChar c) :
    unescapeField l = ⟨l⟩ := by
  unfold unescapeField
  rw [if_neg]
  cases l with
  | nil => simp
  | cons a t =>
    intro hh
    simp only [List.head?_cons, Option.some.injEq] at hh
    exact (h a (List.mem_cons_self a t)).2.1 hh

/-- Decoding inverts escaping, for every field value. -/
theorem unescapeField_escapeCsv (x : String) :
    unescapeField (escapeCsv x).data = x := by
  unfold escapeCsv
  split
  · show unescapeField ('"' :: (doubleQuotes x.data ++ ['"'])) = x
    rw [unescapeField_quoted]
  · next h => rw [unescapeField_of_safe (safe_of_not_contains h)]

/-!  Decomposition of an encoded line and the full round trip. -/

/-- The raw (still escaped) field images of one encoded row. -/
def fieldsData (p : ProductRow) : List (List Char) :=
  [(natToString p.id).data, (escapeCsv p.name).data,
   (escapeCsv p.category).data, (toFixed2 p.price).data,
   (natToString p.quantity).data, (escapeCsv p.status).data,
   (toISOString p.createdAt).data]

/-- One encoded row line without its terminating newline, right-nested for
splitting. -/
def lineCore (p : ProductRow) : List Char :=
  (natToString p.id).data ++ ',' :: ((escapeCsv p.name).data ++
    ',' :: ((escapeCsv p.category).data ++ ',' :: ((toFixed2 p.price).data ++
      ',' :: ((natToString p.quantity).data ++
        ',' :: ((escapeCsv p.status).data ++
          ',' :: (toISOString p.createdAt).data)))))

/-- The characters of `rowToCsvLine` are the seven raw fields joined by
commas and terminated by a newline. -/
theorem rowToCsvLine_data (p : ProductRow) :
    (rowToCsvLine p).data = lineCore p ++ ['\n'] := by
  have hcomma : ("," : String).data = [','] := rfl
  have hnl : ("\n" : String).data = ['\n'] := rfl
  unfold rowToCsvLine lineCore
  simp only [String.data_append, hcomma, hnl, List.append_assoc,
    List.singleton_append, List.cons_append, List.nil_append]

/-- The header line without its newline. -/
def headerCore : List Char :=
  ("id,name,category,price,quantity,status,createdAt" : String).data

theorem CSV_HEADER_data : CSV_HEADER.data = headerCore ++ ['\n'] := rfl

theorem headerCore_passThru : PassThru '\n' headerCore :=
  passThru_safe _ (by decide)

theorem headerCore_fields :
    (splitQAux ',' false headerCore).map unescapeField =
      ["id", "name", "category", "price", "quantity", "status", "createdAt"] :=
  rfl

/-- An encoded line passes through the record splitter unbroken (its only
newlines sit inside quoted fields). -/
theorem lineCore_passThru_nl (p : ProductRow) : PassThru '\n' (lineCore p) := by
  unfold lineCore
  refine passThru_append (passThru_of_safe (Or.inr rfl) (natToString_safe _))
    (passThru_cons_safe (by decide) (by decide) ?_)
  refine passThru_append (escapeCsv_passThru (Or.inr rfl) _)
    (passThru_cons_safe (by decide) (by decide) ?_)
  refine passThru_append (escapeCsv_passThru (Or.inr rfl) _)
    (passThru_cons_safe (by decide) (by decide) ?_)
  refine passThru_append (passThru_of_safe (Or.inr rfl) (toFixed2_safe _))
    (passThru_cons_safe (by decide) (by decide) ?_)
  refine passThru_append (passThru_of_safe (Or.inr rfl) (natToString_safe _))
    (passThru_cons_safe (by decide) (by decide) ?_)
  refine passThru_append (escapeCsv_passThru (Or.inr rfl) _)
    (passThru_cons_safe (by decide) (by decide) ?_)
  exact passThru_of_safe (Or.inr rfl) (toISOString_safe _)

/-- Splitting an encoded line on unquoted commas yields exactly its seven
raw fields. -/
theorem lineCore_fields (p : ProductRow) :
    splitQAux ',' false (lineCore p) = fieldsData p := by
  unfold lineCore fieldsData
  rw [splitQAux_field (by decide)
      (passThru_of_safe (Or.inl rfl) (natToString_safe _)),
    splitQAux_field (by decide) (escapeCsv_passThru (Or.inl rfl) _),
    splitQAux_field (by decide) (escapeCsv_passThru (Or.inl rfl) _),
    splitQAux_field (by decide)
      (passThru_of_safe (Or.inl rfl) (toFixed2_safe _)),
    splitQAux_field (by decide)
      (passThru_of_safe (Or.inl rfl) (natToString_safe _)),
    splitQAux_field (by decide) (escapeCsv_passThru (Or.inl rfl) _),
    splitQAux_last (passThru_of_safe (Or.inl rfl) (toISOString_safe _))]

/-- Decoding the raw fields of a row recovers the row's field strings. -/
theorem fieldsData_unescape (p : ProductRow) :
    (fieldsData p).map unescapeField = rowFields p := by
  unfold fieldsData rowFields
  simp only [List.map_cons, List.map_nil]
  rw [unescapeField_of_safe (natToString_safe p.id),
    unescapeField_escapeCsv p.name,
    unescapeField_escapeCsv p.category,
    unescapeField_of_safe (toFixed2_safe p.price),
    unescapeField_of_safe (natToString_safe p.quantity),
    unescapeField_escapeCsv p.status,
    unescapeField_of_safe (toISOString_safe p.createdAt)]

/-- A list with a guaranteed cons cell is non-empty. -/
theorem append_cons_isEmpty {x y : List Char} (c : Char) :
    (x ++ c :: y).isEmpty = false := by
  cases x <;> rfl

/-- Parsing the header plus two encoded rows reconstructs the header fields
and both rows field-for-field. -/
theorem parseCsv_header_two_rows (r1 r2 : ProductRow) :
    parseCsv (CSV_HEADER ++ rowToCsvLine r1 ++ rowToCsvLine r2) =
      [["id", "name", "category", "price", "quantity", "status", "createdAt"],
       rowFields r1, rowFields r2] := by
  have hdata : (CSV_HEADER ++ rowToCsvLine r1 ++ rowToCsvLine r2).data =
      headerCore ++ '\n' :: (lineCore r1 ++ '\n' :: (lineCore r2 ++
        '\n' :: [])) := by
    rw [String.data_append, String.data_append, CSV_HEADER_data,
      rowToCsvLine_data, rowToCsvLine_data]
    simp only [List.append_assoc, List.singleton_append, List.cons_append,
      List.append_nil, List.nil_append]
  unfold parseCsv
  rw [hdata,
    splitQAux_field (by decide) headerCore_passThru,
    splitQAux_field (by decide) (lineCore_passThru_nl r1),
    splitQAux_field (by decide) (lineCore_passThru_nl r2),
    show splitQAux '\n' false [] = [[]] from rfl]
  have hh : headerCore.isEmpty = false := rfl
  have h1 : (lineCore r1).isEmpty = false := append_cons_isEmpty ','
  have h2 : (lineCore r2).isEmpty = false := append_cons_isEmpty ','
  simp only [List.filter_cons, hh, h1, h2, Bool.not_false, if_true,
    List.isEmpty_nil, Bool.not_true, Bool.false_eq_true, if_false,
    List.filter_nil, List.map_cons, List.map_nil]
  rw [headerCore_fields, lineCore_fields, lineCore_fields,
    fieldsData_unescape, fieldsData_unescape]

/-- C5: row encoding is RFC4180 — every field containing a comma, double
quote or newline is wrapped in double quotes with internal double quotes
doubled (in particular `Ultra, "Pro" Widget` encodes as
`"Ultra, ""Pro"" Widget"`) — and parsing the header plus any two encoded
rows with the RFC4180 parser reconstructs both rows field-for-field. -/
theorem csv_rfc4180_round_trip :
    (∀ s : String,
      (s.data.contains ',' || s.data.contains '"' ||
        s.data.contains '\n') = true →
      escapeCsv s = ⟨'"' :: doubleQuotes s.data ++ ['"']⟩) ∧
    escapeCsv "Ultra, \"Pro\" Widget" = "\"Ultra, \"\"Pro\"\" Widget\"" ∧
    (∀ r1 r2 : ProductRow,
      parseCsv (CSV_HEADER ++ rowToCsvLine r1 ++ rowToCsvLine r2) =
        [["id", "name", "category", "price", "quantity", "status",
          "createdAt"], rowFields r1, rowFields r2]) := by
  refine ⟨?_, by decide, parseCsv_header_two_rows⟩
  intro s h
  unfold escapeCsv
  rw [if_pos h]

/-- Witness for `csv_rfc4180_round_trip`: the escaping clause discharged at
the name `Ultra, "Pro" Widget`, and the round trip at two concrete rows (one
with a comma and embedded quotes in its name). -/
theorem csv_rfc4180_round_trip_witness :
    escapeCsv "Ultra, \"Pro\" Widget" =
      ⟨'"' :: doubleQuotes "Ultra, \"Pro\" Widget".data ++ ['"']⟩ ∧
    parseCsv (CSV_HEADER ++
        rowToCsvLine ⟨1, "Ultra, \"Pro\" Widget", "Toys", 1999, 5, "active",
          ⟨2024, 1, 2, 3, 4, 5, 6⟩⟩ ++
        rowToCsvLine ⟨2, "Plain", "Food", 250, 0, "inactive",
          ⟨1970, 1, 1, 0, 0, 0, 0⟩⟩) =
      [["id", "name", "category", "price", "quantity", "status", "createdAt"],
       rowFields ⟨1, "Ultra, \"Pro\" Widget", "Toys", 1999, 5, "active",
         ⟨2024, 1, 2, 3, 4, 5, 6⟩⟩,
       rowFields ⟨2, "Plain", "Food", 250, 0, "inactive",
         ⟨1970, 1, 1, 0, 0, 0, 0⟩⟩] :=
  ⟨csv_rfc4180_round_trip.1 "Ultra, \"Pro\" Widget" (by decide),
   csv_rfc4180_round_trip.2.2
     ⟨1, "Ultra, \"Pro\" Widget", "Toys", 1999, 5, "active",
       ⟨2024, 1, 2, 3, 4, 5, 6⟩⟩
     ⟨2, "Plain", "Food", 250, 0, "inactive", ⟨1970, 1, 1, 0, 0, 0, 0⟩⟩⟩

end CsvExport
